import Mathlib

/-!
Verification of the step-resolution engine, button-classification state
machine, command handler, metrics recorder and file-format validator of
`cursor_automation.py`.  Strings are embedded as `List Char` so that every
operation is a structurally recursive, kernel-computable function; Python
`time.time()` values are embedded as rationals.
-/

namespace CursorAutomator

/-! ### Python string primitives -/

/-- Drop the characters satisfying `p` from both ends of a character list,
as Python's `str.strip` family does. -/
def stripWhile (p : Char → Bool) (l : List Char) : List Char :=
  ((l.dropWhile p).reverse.dropWhile p).reverse

/-- Python `str.strip()`: remove surrounding whitespace. -/
def pyStrip (l : List Char) : List Char := stripWhile Char.isWhitespace l

/-- Python `str.strip('- ')`: remove surrounding dashes and spaces. -/
def stripDashSpace (l : List Char) : List Char :=
  stripWhile (fun c => c == '-' || c == ' ') l

/-- Python `str.lower()` (the texts involved are ASCII). -/
def pyLower (l : List Char) : List Char := l.map Char.toLower

/-- Python substring test `needle in haystack`. -/
def hasSub (needle : List Char) : List Char → Bool
  | [] => needle.isEmpty
  | c :: cs => needle.isPrefixOf (c :: cs) || hasSub needle cs

/-! ### DocumentStepIndex / StepResolver (`parse_current_step`, lines 163-236)

The parse phase walks the checklist lines carrying the current section and
subsection, and collects `(line_number, status, full_path)` entries for the
lines containing a status glyph. -/

inductive StepStatus
  | inProgress
  | incomplete
  | complete
deriving DecidableEq, Repr

/-- One entry of the tuple list `steps` built by `parse_current_step`:
`(i, status, full_path)`. -/
structure StepEntry where
  pos : Nat
  status : StepStatus
  path : List (List Char)
deriving DecidableEq, Repr

/-- `any(marker in line for marker in ['🔄', '❌', '✓'])`. -/
def hasMarker (line : List Char) : Bool :=
  decide ('🔄' ∈ line ∨ '❌' ∈ line ∨ '✓' ∈ line)

/-- `status = 'in_progress' if '🔄' in line else 'incomplete' if '❌' in line else 'complete'`. -/
def stepStatusOf (line : List Char) : StepStatus :=
  if '🔄' ∈ line then .inProgress
  else if '❌' ∈ line then .incomplete
  else .complete

/-- `line.replace('🔄', '').replace('❌', '').replace('✓', '').strip('- ').strip()`
(each glyph is a single character, so the replaces delete those characters). -/
def cleanStep (line : List Char) : List Char :=
  pyStrip (stripDashSpace
    (line.filter (fun c => !(c == '🔄' || c == '❌' || c == '✓'))))

/-- The `for i, line in enumerate(lines)` loop of `parse_current_step`
(lines 191-219): `i` is the index over all lines, blank lines are skipped,
`## ` headings set the section and clear the subsection, `### ` headings set
the subsection, and any line containing a glyph becomes a step whose path is
`[section, subsection, label]` with the subsection omitted when empty. -/
def parseAux (i : Nat) (sec sub : List Char) : List (List Char) → List StepEntry
  | [] => []
  | rawLine :: rest =>
    let line := pyStrip rawLine
    if line = [] then parseAux (i + 1) sec sub rest
    else
      let sec' := if "## ".data.isPrefixOf line then pyStrip (line.drop 3) else sec
      let sub' := if "## ".data.isPrefixOf line then []
        else if "### ".data.isPrefixOf line then pyStrip (line.drop 4) else sub
      if hasMarker line then
        { pos := i, status := stepStatusOf line,
          path := if sub' = [] then [sec', cleanStep line]
            else [sec', sub', cleanStep line] } :: parseAux (i + 1) sec' sub' rest
      else parseAux (i + 1) sec' sub' rest

/-- Parse a document (given as its list of lines) into the step index. -/
def parseSteps (lines : List (List Char)) : List StepEntry :=
  parseAux 0 [] [] lines

/-- Python `min(xs, key=lambda x: x[0])` on a nonempty list: the first
element with the least key. -/
def pyMinByPos (x : StepEntry) (xs : List StepEntry) : StepEntry :=
  xs.foldl (fun a b => if b.pos < a.pos then b else a) x

/-- The resolution phase of `parse_current_step` (lines 221-232): earliest
in-progress step, else earliest incomplete step, else nothing. -/
def resolveSteps (steps : List StepEntry) : Option (List (List Char)) :=
  match steps.filter (fun s => decide (s.status = .inProgress)) with
  | x :: xs => some (pyMinByPos x xs).path
  | [] =>
    match steps.filter (fun s => decide (s.status = .incomplete)) with
    | x :: xs => some (pyMinByPos x xs).path
    | [] => none

/-- `' > '.join(path)`. -/
def joinPath (p : List (List Char)) : List Char :=
  List.intercalate " > ".data p

/-- The value returned by a fresh (cache-missing) run of `parse_current_step`:
the resolved path joined with `' > '`, or `None`. -/
def resolveJoined (steps : List StepEntry) : Option (List Char) :=
  (resolveSteps steps).map joinPath

/-! ### Session state (`CursorAutomation.__init__`, lines 102-119)

The checklist file content is embedded as its list of lines (the `==`
comparison against `last_file_content` becomes equality of line lists), and
`time.time()` values as rationals. -/

structure AutoState where
  lastText : Option (List Char)
  waitingForCompletion : Bool
  messagesSent : Nat
  commandsExecuted : Nat
  isPaused : Bool
  running : Bool
  currentStep : Option (List Char)
  lastFileCheck : ℚ
  checkInterval : ℚ
  lastFileContent : Option (List (List Char))
deriving DecidableEq, Repr

/-- The field values set by `__init__`. -/
def initState : AutoState where
  lastText := none
  waitingForCompletion := false
  messagesSent := 0
  commandsExecuted := 0
  isPaused := false
  running := true
  currentStep := none
  lastFileCheck := 0
  checkInterval := 1
  lastFileContent := none

/-! ### TextClassifier (`handle_button`, lines 334-353) -/

def acceptPhrases : List (List Char) :=
  ["run command".data, "run this command".data, "run the command".data,
   "accept".data, "accept all".data, "command".data, "command ⌘".data]

def completedPhrases : List (List Char) :=
  ["completed".data, "done".data, "success".data, "finished".data]

/-- `any(phrase in text.lower() for phrase in accept_phrases)`. -/
def isAcceptButton (text : List Char) : Bool :=
  acceptPhrases.any (fun p => hasSub p (pyLower text))

/-- `any(phrase in text.lower() for phrase in completed_phrases)`. -/
def isCompletedText (text : List Char) : Bool :=
  completedPhrases.any (fun p => hasSub p (pyLower text))

/-- `'generating' in text.lower() or 'loading' in text.lower()`. -/
def isBusyText (text : List Char) : Bool :=
  hasSub "generating".data (pyLower text) || hasSub "loading".data (pyLower text)

/-- `'cancel' in text.lower() or 'skip' in text.lower()`. -/
def isCancelText (text : List Char) : Bool :=
  hasSub "cancel".data (pyLower text) || hasSub "skip".data (pyLower text)

/-! ### AutomationStateMachine (`handle_button`, lines 328-400)

The two synthetic-input emissions are abstracted by two flags telling
whether the collaborator succeeds or raises.  `raised = true` records an
exception escaping `handle_button` uncaught (no handler in `run`'s loop
either, so the polling loop dies with it). -/

inductive EmitAction
  | acceptKeys
  | continueMessage
deriving DecidableEq, Repr

structure ButtonResult where
  st : AutoState
  actions : List EmitAction
  raised : Bool
deriving DecidableEq, Repr

/-- One `handle_button(text)` call.  The accept branch (lines 355-381) wraps
its emission and the subsequent `commands_executed`/`waiting_for_completion`
updates in `try/except`, so on failure none of them happen and control still
reaches `self.last_text = text` (line 400).  The completed branch (lines
383-388) calls `type_continue_implementation` with no handler anywhere on
the path, so an emission failure there aborts `handle_button` before
`messages_sent`, `waiting_for_completion` or `last_text` are touched. -/
def handleButton (acceptEmitOk continueEmitOk : Bool) (st : AutoState)
    (text : List Char) : ButtonResult :=
  if text = [] then ⟨st, [], false⟩
  else if isAcceptButton text = true ∧ some text ≠ st.lastText then
    if acceptEmitOk then
      ⟨{ st with
          commandsExecuted := st.commandsExecuted + 1
          waitingForCompletion := true
          lastText := some text },
        [.acceptKeys], false⟩
    else
      ⟨{ st with lastText := some text }, [], false⟩
  else if isCompletedText text = true ∧ st.waitingForCompletion = true then
    if continueEmitOk then
      ⟨{ st with
          messagesSent := st.messagesSent + 1
          waitingForCompletion := false
          lastText := some text },
        [.continueMessage], false⟩
    else
      ⟨st, [], true⟩
  else
    ⟨{ st with lastText := some text }, [], false⟩

/-- Feed a sequence of samples to `handle_button` with both emissions
succeeding, collecting the emitted actions. -/
def runSamples (st : AutoState) : List (List Char) → AutoState × List EmitAction
  | [] => (st, [])
  | t :: ts =>
    let r := handleButton true true st t
    ((runSamples r.st ts).1, r.actions ++ (runSamples r.st ts).2)

/-! ### Cached refresh (`parse_current_step` caching layers and
`update_status`, lines 163-248) -/

/-- One `parse_current_step()` call, with the file system abstracted by
`fileExists` (the `os.path.exists` test), `readOk` (whether `open`/`read`
raises) and `content` (the file's lines).  Returns the updated object state
and the function's return value.  A missing file returns `None` before the
interval check; a raised read error is caught at line 234 and falls to the
final `return None`. -/
def parseCurrentStepM (fileExists readOk : Bool) (content : List (List Char))
    (now : ℚ) (st : AutoState) : AutoState × Option (List Char) :=
  if fileExists = false then (st, none)
  else if now - st.lastFileCheck < st.checkInterval then (st, st.currentStep)
  else
    let st1 := { st with lastFileCheck := now }
    if readOk = false then (st1, none)
    else if some content = st.lastFileContent then (st1, st.currentStep)
    else
      let st2 := { st1 with lastFileContent := some content }
      (st2, resolveJoined (parseSteps content))

/-- The step-refresh part of `update_status` (lines 243-248): the freshly
parsed value replaces `current_step` whenever it differs. -/
def updateStatusStep (res : AutoState × Option (List Char)) : AutoState :=
  if res.2 ≠ res.1.currentStep then { res.1 with currentStep := res.2 } else res.1

/-! ### Operator commands (`handle_command`, lines 276-299)

`CursorAutomation` defines no `set_current_step`, `complete_current_step` or
`show_metrics` method, and its base class `object` has no `handle_command`,
so the corresponding attribute accesses raise `AttributeError` before any
state is mutated.  The `stop`/`exit`/`quit` branch reaches
`self.running = False` only when `self.current_step` is falsy (None or
empty), since a truthy step first calls the missing
`complete_current_step`. -/

inductive PyErr
  | attributeError
deriving DecidableEq, Repr

/-- Python truthiness of the optional `current_step` string. -/
def stepTruthy : Option (List Char) → Bool
  | none => false
  | some s => !s.isEmpty

/-- One `handle_command(cmd)` call.  The file-system parameters feed the
`update_status` refresh performed on the successful `stop` path. -/
def handleCommand (fileExists readOk : Bool) (content : List (List Char))
    (now : ℚ) (st : AutoState) (cmd : List Char) : Except PyErr AutoState :=
  let c := pyStrip (pyLower cmd)
  if "step ".data.isPrefixOf c then .error .attributeError
  else if c = "complete".data then .error .attributeError
  else if c = "fail".data then .error .attributeError
  else if c = "metrics".data then .error .attributeError
  else if c = "stop".data ∨ c = "exit".data ∨ c = "quit".data then
    if stepTruthy st.currentStep then .error .attributeError
    else
      let st1 := { st with running := false }
      .ok (updateStatusStep (parseCurrentStepM fileExists readOk content now st1))
  else .error .attributeError

/-! ### MetricsRecorder (`StepMetrics` / `ProjectMetrics`, lines 15-100) -/

structure StepMetricsR where
  stepName : List Char
  startTime : ℚ
  endTime : Option ℚ := none
  status : List Char := "🔄".data
  duration : Option ℚ := none
  commandsExecuted : Nat := 0
  messagesSent : Nat := 0
deriving DecidableEq, Repr

/-- The `steps` dict (insertion-ordered, keyed by step name) plus
`current_step`. -/
structure ProjectMetricsR where
  steps : List (List Char × StepMetricsR) := []
  currentStep : Option (List Char) := none
deriving DecidableEq, Repr

def initMetrics : ProjectMetricsR := {}

/-- Python dict assignment `d[k] = v`: replace in place, else append. -/
def dictSet (k : List Char) (v : StepMetricsR) :
    List (List Char × StepMetricsR) → List (List Char × StepMetricsR)
  | [] => [(k, v)]
  | (k', v') :: rest =>
    if k' = k then (k, v) :: rest else (k', v') :: dictSet k v rest

/-- Python dict lookup `d.get(k)`. -/
def dictGet (k : List Char) (l : List (List Char × StepMetricsR)) :
    Option StepMetricsR :=
  (l.find? (fun p => decide (p.1 = k))).map Prod.snd

/-- `ProjectMetrics.end_step` (lines 43-50): guarded by
`if self.current_step and self.current_step in self.steps`; stamps the end
time, status and duration of the current step.  (`save_metrics` is a pure
side effect on disk.) -/
def endStep (now : ℚ) (status : List Char) (m : ProjectMetricsR) : ProjectMetricsR :=
  match m.currentStep with
  | none => m
  | some cs =>
    if cs = [] then m
    else
      match dictGet cs m.steps with
      | none => m
      | some step =>
        let step' := { step with
          endTime := some now
          status := status
          duration := some (now - step.startTime) }
        { m with steps := dictSet cs step' m.steps }

/-- `ProjectMetrics.start_step` (lines 32-41): implicitly ends a truthy
current step (with the default status `"✓"`), then opens the new one.  The
two `time.time()` calls of the real code are merged into one `now`. -/
def startStep (now : ℚ) (name : List Char) (m : ProjectMetricsR) : ProjectMetricsR :=
  let m1 := if stepTruthy m.currentStep then endStep now "✓".data m else m
  { m1 with
    currentStep := some name
    steps := dictSet name { stepName := name, startTime := now } m1.steps }

/-- Python float truthiness of `step.duration`: `None` and `0.0` are falsy. -/
def durationTruthy : Option ℚ → Bool
  | none => false
  | some d => decide (d ≠ 0)

/-- `ProjectMetrics.get_total_duration` (lines 71-77):
`if step.duration: total += step.duration`. -/
def getTotalDuration (m : ProjectMetricsR) : ℚ :=
  m.steps.foldl
    (fun total p => if durationTruthy p.2.duration then total + p.2.duration.getD 0 else total)
    0

/-! ### File-format validator (`validate_file_format`, lines 559-610) -/

structure Diagnostics where
  hasSections : Bool := false
  hasSubsections : Bool := false
  hasProgressMarkers : Bool := false
  hasIncompleteMarkers : Bool := false
  totalSteps : Nat := 0
  inProgress : Nat := 0
  completed : Nat := 0
  incomplete : Nat := 0
deriving DecidableEq, Repr

/-- The per-line `if/elif` chain of `validate_file_format` (lines 579-595):
headings are classified before any glyph, and glyphs in the order
`✓`, `❌`, `🔄`. -/
def validateLine (d : Diagnostics) (rawLine : List Char) : Diagnostics :=
  let line := pyStrip rawLine
  if "## ".data.isPrefixOf line then { d with hasSections := true }
  else if "### ".data.isPrefixOf line then { d with hasSubsections := true }
  else if '✓' ∈ line then
    { d with completed := d.completed + 1, totalSteps := d.totalSteps + 1 }
  else if '❌' ∈ line then
    { d with
      hasIncompleteMarkers := true
      incomplete := d.incomplete + 1
      totalSteps := d.totalSteps + 1 }
  else if '🔄' ∈ line then
    { d with
      hasProgressMarkers := true
      inProgress := d.inProgress + 1
      totalSteps := d.totalSteps + 1 }
  else d

/-- The counting loop of `validate_file_format` over the file's lines. -/
def validateFileFormat (lines : List (List Char)) : Diagnostics :=
  lines.foldl validateLine {}

/-- The critical-issue list computed after the loop (lines 598-601). -/
def validateIssues (d : Diagnostics) : List String :=
  (if d.hasSections = false then
    ["No sections (##) found. File should have sections marked with ##"] else [])
  ++ (if d.hasProgressMarkers = false ∧ d.hasIncompleteMarkers = false then
    ["No progress (🔄) or incomplete (❌) markers found"] else [])

/-- The warning list computed after the loop (lines 604-605). -/
def validateWarnings (d : Diagnostics) : List String :=
  if 1 < d.inProgress then
    ["Multiple in-progress (🔄) steps found: " ++ toString d.inProgress] else []

/-- Recursive restatement of the `get_total_duration` fold, used to reason
about it. -/
def totalRec : List (List Char × StepMetricsR) → ℚ
  | [] => 0
  | p :: rest =>
    (if durationTruthy p.2.duration then p.2.duration.getD 0 else 0) + totalRec rest

/-! ### Concrete documents and states used as test inputs -/

/-- The end-to-end example document of the specification. -/
def exLines : List (List Char) :=
  ["## Setup", "- 🔄 configure env", "## Build", "- ❌ compile"].map String.data

/-- A step line textually carrying all three glyphs. -/
def exMultiLine : List Char := "- ✓ ❌ 🔄 all".data

/-- A section heading that also carries two glyphs. -/
def headGlyphLine : List Char := "## S ✓ 🔄".data

/-- A plain step line carrying both the complete and the in-progress glyph. -/
def mixedLine : List Char := "- t ✓ 🔄".data

/-- A session in which an accept action has fired and the completion latch is
open. -/
def stWaiting : AutoState :=
  { initState with waitingForCompletion := true, lastText := some "x".data }

/-- A session holding a previously resolved current step. -/
def stWithStep : AutoState :=
  { initState with currentStep := some "Setup > configure env".data }

/-- A session whose previous sample was the text `accept`. -/
def stLastAccept : AutoState :=
  { initState with lastText := some "accept".data }

/-- A step record whose recorded duration is exactly zero. -/
def zeroStep : StepMetricsR :=
  { stepName := "A".data
    startTime := 3
    endTime := some 3
    status := "✓".data
    duration := some 0 }

/-! ## Theorems -/

/-- The fold of `get_total_duration` adds, on top of its accumulator, the
value of `totalRec`. -/
theorem getTotalDuration_foldl (l : List (List Char × StepMetricsR)) :
    ∀ init : ℚ,
      l.foldl (fun total p =>
          if durationTruthy p.2.duration then total + p.2.duration.getD 0 else total)
        init
      = init + totalRec l := by
  induction l with
  | nil => simp [totalRec]
  | cons hd tl ih =>
    intro init
    rw [List.foldl_cons, totalRec, ih]
    by_cases h : durationTruthy hd.2.duration = true
    · simp only [h, if_true, if_pos]
      ring
    · simp [h]

/-- `totalRec` is the sum of the recorded non-zero durations. -/
theorem totalRec_eq_sum (l : List (List Char × StepMetricsR)) :
    totalRec l
      = ((l.filterMap (fun p => p.2.duration)).filter (fun d => decide (d ≠ 0))).sum := by
  induction l with
  | nil => rfl
  | cons p rest ih =>
    rw [totalRec, List.filterMap_cons]
    cases hdur : p.2.duration with
    | none => simpa [durationTruthy] using ih
    | some d =>
      by_cases hd0 : d = 0
      · simp [durationTruthy, hd0, List.filter_cons, ih]
      · simp [durationTruthy, hd0, List.filter_cons, ih]

/-- C10: `get_total_duration` sums exactly the recorded non-null, non-zero
durations; a step whose recorded duration is exactly `0.0` is excluded from
the sum because the guard `if step.duration:` tests float truthiness, so
inserting such a step anywhere in the map leaves the total unchanged. -/
theorem get_total_duration_c10 :
    (∀ m : ProjectMetricsR,
      getTotalDuration m
        = ((m.steps.filterMap (fun p => p.2.duration)).filter
            (fun d => decide (d ≠ 0))).sum) ∧
    (∀ (pre post : List (List Char × StepMetricsR)) (k : List Char)
        (s : StepMetricsR) (cs : Option (List Char)), s.duration = some 0 →
      getTotalDuration ⟨pre ++ (k, s) :: post, cs⟩
        = getTotalDuration ⟨pre ++ post, cs⟩) := by
  have hchar : ∀ m : ProjectMetricsR,
      getTotalDuration m
        = ((m.steps.filterMap (fun p => p.2.duration)).filter
            (fun d => decide (d ≠ 0))).sum := by
    intro m
    unfold getTotalDuration
    rw [getTotalDuration_foldl, totalRec_eq_sum]
    simp
  refine ⟨hchar, ?_⟩
  intro pre post k s cs hs
  rw [hchar, hchar]
  simp [List.filterMap_append, List.filter_append, hs]

/-- C10 witness: a concrete metrics map holding one zero-duration step has
total duration `0`, the total of the empty map. -/
theorem get_total_duration_c10_witness :
    getTotalDuration ⟨[("A".data, zeroStep)], none⟩ = getTotalDuration ⟨[], none⟩ :=
  get_total_duration_c10.2 [] [] "A".data zeroStep none (by decide)

/-- C8: after `start_step("A")` at `t0`, `end_step("✓")` at `t1` and
`start_step("B")` at `t2`, the total duration equals exactly A's recorded
duration (`start_step("B")` implicitly re-ends the still-current step A, so
that duration is `t2 - t0`), and the freshly opened step B carries no
duration and is excluded from the sum. -/
theorem metrics_round_trip_c8 (t0 t1 t2 : ℚ) :
    ((dictGet "A".data
        (startStep t2 "B".data (endStep t1 "✓".data
          (startStep t0 "A".data initMetrics))).steps).bind
        (fun s => s.duration)) = some (t2 - t0) ∧
    ((dictGet "B".data
        (startStep t2 "B".data (endStep t1 "✓".data
          (startStep t0 "A".data initMetrics))).steps).bind
        (fun s => s.duration)) = none ∧
    getTotalDuration
        (startStep t2 "B".data (endStep t1 "✓".data
          (startStep t0 "A".data initMetrics)))
      = t2 - t0 := by
  have hm : startStep t2 "B".data (endStep t1 "✓".data
      (startStep t0 "A".data initMetrics))
      = ⟨[("A".data,
            { stepName := "A".data
              startTime := t0
              endTime := some t2
              status := "✓".data
              duration := some (t2 - t0) }),
          ("B".data, { stepName := "B".data, startTime := t2 })],
         some "B".data⟩ := by
    simp [startStep, endStep, initMetrics, stepTruthy, dictGet, dictSet]
  rw [hm]
  refine ⟨rfl, rfl, ?_⟩
  by_cases h0 : t2 - t0 = 0
  · simp [getTotalDuration, durationTruthy, h0]
  · simp [getTotalDuration, durationTruthy, h0]

/-- An accept-classified text is nonempty (every accept phrase is nonempty,
so nothing is a substring of the empty text). -/
theorem isAccept_ne_nil {t : List Char} (h : isAcceptButton t = true) : t ≠ [] := by
  rintro rfl
  exact absurd h (by decide)

/-- A completion-classified text is nonempty. -/
theorem isCompleted_ne_nil {t : List Char} (h : isCompletedText t = true) : t ≠ [] := by
  rintro rfl
  exact absurd h (by decide)

/-- A line containing a status glyph is nonempty. -/
theorem marker_ne_nil {l : List Char} (h : hasMarker l = true) : l ≠ [] := by
  rintro rfl
  exact absurd h (by decide)

/-- C7 (evaluation at the failing inputs): `handle_command` raises
`AttributeError` for `stop` when a current step is set (the branch calls the
undefined `complete_current_step` before reaching `self.running = False`),
for `step <name>`, `complete`, `fail` and `metrics` (undefined
`set_current_step` / `complete_current_step` / `show_metrics`), and for
unrecognized input such as `pause` (`object` has no `handle_command` for
`super()`); only `stop`/`exit`/`quit` with no current step actually clears
the running flag. -/
theorem handle_command_c7 :
    handleCommand true true [] 5 stWithStep "stop".data = .error .attributeError ∧
    handleCommand true true [] 5 initState "step build".data
      = .error .attributeError ∧
    handleCommand true true [] 5 initState "complete".data
      = .error .attributeError ∧
    handleCommand true true [] 5 initState "fail".data = .error .attributeError ∧
    handleCommand true true [] 5 initState "metrics".data = .error .attributeError ∧
    handleCommand true true [] 5 initState "pause".data = .error .attributeError ∧
    handleCommand true true [] 5 initState "stop".data
      = .ok { initState with
          running := false
          lastFileCheck := 5
          lastFileContent := some [] } := by
  refine ⟨rfl, rfl, rfl, rfl, rfl, rfl, ?_⟩
  have hstop : handleCommand true true [] 5 initState "stop".data
      = .ok (updateStatusStep
          (parseCurrentStepM true true [] 5 { initState with running := false })) := rfl
  have h5 : ¬ ((5 : ℚ) - 0 < 1) := by norm_num
  have hparse : parseCurrentStepM true true [] 5 { initState with running := false }
      = ({ initState with
            running := false
            lastFileCheck := 5
            lastFileContent := some [] }, none) := by
    simp [parseCurrentStepM, h5, parseSteps, parseAux, resolveJoined, resolveSteps,
      initState]
  rw [hstop, hparse]
  simp [updateStatusStep, initState]

/-- The step-refresh of `update_status` applied to a `None` parse result
leaves `current_step` equal to `None`. -/
theorem updateStatusStep_none (st : AutoState) :
    (updateStatusStep (st, none)).currentStep = none := by
  unfold updateStatusStep
  split_ifs with h
  · rfl
  · simp at h
    exact h.symm

/-- C6 counterexample: a session holding a previously resolved step loses it
when the checklist file goes missing mid-run — `parse_current_step` returns
`None` and `update_status` overwrites the step, instead of retaining the
last good one as the claim states. -/
theorem refresh_c6_counterexample :
    stWithStep.currentStep = some "Setup > configure env".data ∧
    (updateStatusStep (parseCurrentStepM false true [] 5 stWithStep)).currentStep
      = none := by
  decide

/-- C6 amended: mid-run, a missing checklist file makes `parse_current_step`
return `None` immediately (even inside the check interval) and a read error
makes it return `None` once the check interval has elapsed; in both cases
`update_status` then replaces the previously resolved step with `None`.  The
last good step is retained only while the check-interval cache suppresses
the re-read. -/
theorem refresh_c6_amended (st : AutoState) (ro : Bool)
    (content : List (List Char)) (now : ℚ) :
    (parseCurrentStepM false ro content now st = (st, none) ∧
      (updateStatusStep (parseCurrentStepM false ro content now st)).currentStep
        = none) ∧
    (¬ now - st.lastFileCheck < st.checkInterval →
      parseCurrentStepM true false content now st
        = ({ st with lastFileCheck := now }, none) ∧
      (updateStatusStep (parseCurrentStepM true false content now st)).currentStep
        = none) ∧
    (now - st.lastFileCheck < st.checkInterval →
      parseCurrentStepM true ro content now st = (st, st.currentStep) ∧
      updateStatusStep (parseCurrentStepM true ro content now st) = st) := by
  have hmiss : parseCurrentStepM false ro content now st = (st, none) := by
    simp [parseCurrentStepM]
  refine ⟨⟨hmiss, by rw [hmiss]; exact updateStatusStep_none st⟩, ?_, ?_⟩
  · intro h
    have hread : parseCurrentStepM true false content now st
        = ({ st with lastFileCheck := now }, none) := by
      simp [parseCurrentStepM, h]
    exact ⟨hread, by rw [hread]; exact updateStatusStep_none _⟩
  · intro h
    have hcache : parseCurrentStepM true ro content now st = (st, st.currentStep) := by
      simp [parseCurrentStepM, h]
    refine ⟨hcache, ?_⟩
    rw [hcache]
    simp [updateStatusStep]

/-- C6 amended witness: concrete read failure after the interval clears the
step; a concrete in-interval call retains the whole state. -/
theorem refresh_c6_amended_witness :
    (updateStatusStep (parseCurrentStepM true false [] 5 stWithStep)).currentStep
      = none ∧
    updateStatusStep (parseCurrentStepM true true [] (1/2) stWithStep)
      = stWithStep :=
  ⟨((refresh_c6_amended stWithStep false [] 5).2.1
      (by norm_num [stWithStep, initState])).2,
   ((refresh_c6_amended stWithStep true [] (1/2)).2.2
      (by norm_num [stWithStep, initState])).2⟩

/-- C5 counterexample: with the completion latch open, a failing
continue-message emission escapes `handle_button` uncaught (`raised = true`
models the exception propagating out, where the polling loop has no handler)
and the state is left untouched — refuting the claim that an emission
exception on the continue path is caught and logged. -/
theorem emission_c5_counterexample :
    (handleButton true false stWaiting "done".data).raised = true ∧
    (handleButton true false stWaiting "done".data).st = stWaiting := by
  decide

/-- C5 amended: an exception during the accept key-combination emission is
caught: `handle_button` returns normally, `running`, the counters and
`waitingForCompletion` are unchanged and only `lastText` is updated.  An
exception during the continue-message emission is not caught: it propagates
out of `handle_button` (terminating the polling loop), leaving the whole
state — including `waitingForCompletion` and `messagesSent` — unchanged. -/
theorem emission_c5_amended (st : AutoState) (t : List Char) :
    (isAcceptButton t = true → some t ≠ st.lastText →
      handleButton false true st t = ⟨{ st with lastText := some t }, [], false⟩) ∧
    (isAcceptButton t = false → isCompletedText t = true →
      st.waitingForCompletion = true →
      handleButton true false st t = ⟨st, [], true⟩) := by
  constructor
  · intro h1 h2
    unfold handleButton
    rw [if_neg (isAccept_ne_nil h1), if_pos ⟨h1, h2⟩]
    rfl
  · intro h1 h2 h3
    unfold handleButton
    rw [if_neg (isCompleted_ne_nil h2),
      if_neg (by simp [h1] : ¬(isAcceptButton t = true ∧ some t ≠ st.lastText)),
      if_pos ⟨h2, h3⟩]
    rfl

/-- C5 amended witness: concrete accept-emission failure is absorbed, while
a concrete continue-emission failure propagates. -/
theorem emission_c5_amended_witness :
    handleButton false true initState "accept".data
      = ⟨{ initState with lastText := some "accept".data }, [], false⟩ ∧
    handleButton true false stWaiting "done".data = ⟨stWaiting, [], true⟩ :=
  ⟨(emission_c5_amended initState "accept".data).1 (by decide) (by decide),
   (emission_c5_amended stWaiting "done".data).2 (by decide) (by decide) (by decide)⟩

/-- A single line containing a status glyph parses to one step at position 0
whose status is assigned by `stepStatusOf`. -/
theorem parseSteps_singleton (l : List Char) (hm : hasMarker (pyStrip l) = true) :
    ∃ e ∈ parseSteps [l], e.pos = 0 ∧ e.status = stepStatusOf (pyStrip l) := by
  unfold parseSteps
  simp only [parseAux]
  rw [if_neg (marker_ne_nil hm), if_pos hm]
  exact ⟨_, List.mem_cons_self _ _, rfl, rfl⟩

/-- C9 counterexample: a heading line carrying both the complete and the
in-progress glyph is classified by `validate_file_format`'s `elif` chain as
a section, counted under no glyph at all — refuting the claim that every
line with more than one glyph is counted under its first matching glyph. -/
theorem validate_c9_counterexample :
    '✓' ∈ pyStrip headGlyphLine ∧ '🔄' ∈ pyStrip headGlyphLine ∧
    (validateFileFormat [headGlyphLine]).completed = 0 ∧
    (validateFileFormat [headGlyphLine]).inProgress = 0 ∧
    (validateFileFormat [headGlyphLine]).incomplete = 0 ∧
    (validateFileFormat [headGlyphLine]).totalSteps = 0 := by
  decide

/-- C9 amended: for every line that (after stripping) is not a `## ` or
`### ` heading, `validate_file_format` counts it under the first glyph
matched in the order `✓`, `❌`, `🔄`; in particular a line carrying both `✓`
and `🔄` is counted as completed, the opposite of the in-progress-first
precedence `parse_current_step` assigns to the same line.  (A heading line
carrying glyphs is counted as a section/subsection and under no glyph.) -/
theorem validate_c9_amended (l : List Char)
    (hs : "## ".data.isPrefixOf (pyStrip l) = false)
    (hss : "### ".data.isPrefixOf (pyStrip l) = false) :
    ('✓' ∈ pyStrip l →
      (validateFileFormat [l]).completed = 1 ∧
      (validateFileFormat [l]).incomplete = 0 ∧
      (validateFileFormat [l]).inProgress = 0) ∧
    ('✓' ∉ pyStrip l → '❌' ∈ pyStrip l →
      (validateFileFormat [l]).incomplete = 1 ∧
      (validateFileFormat [l]).completed = 0 ∧
      (validateFileFormat [l]).inProgress = 0) ∧
    ('✓' ∉ pyStrip l → '❌' ∉ pyStrip l → '🔄' ∈ pyStrip l →
      (validateFileFormat [l]).inProgress = 1 ∧
      (validateFileFormat [l]).completed = 0 ∧
      (validateFileFormat [l]).incomplete = 0) ∧
    ('🔄' ∈ pyStrip l →
      ∃ e ∈ parseSteps [l], e.pos = 0 ∧ e.status = StepStatus.inProgress) := by
  have hv : validateFileFormat [l] = validateLine {} l := rfl
  have hsp : ¬ ("## ".data.isPrefixOf (pyStrip l) = true) := by simp [hs]
  have hssp : ¬ ("### ".data.isPrefixOf (pyStrip l) = true) := by simp [hss]
  refine ⟨?_, ?_, ?_, ?_⟩
  · intro h1
    rw [hv]
    unfold validateLine
    rw [if_neg hsp, if_neg hssp, if_pos h1]
    exact ⟨rfl, rfl, rfl⟩
  · intro h1 h2
    rw [hv]
    unfold validateLine
    rw [if_neg hsp, if_neg hssp, if_neg h1, if_pos h2]
    exact ⟨rfl, rfl, rfl⟩
  · intro h1 h2 h3
    rw [hv]
    unfold validateLine
    rw [if_neg hsp, if_neg hssp, if_neg h1, if_neg h2, if_pos h3]
    exact ⟨rfl, rfl, rfl⟩
  · intro h1
    obtain ⟨e, he, hp, hstat⟩ := parseSteps_singleton l
      (by simp only [hasMarker, decide_eq_true_eq]; exact Or.inl h1)
    refine ⟨e, he, hp, ?_⟩
    rw [hstat]
    unfold stepStatusOf
    rw [if_pos h1]

/-- C9 amended witness: the concrete step line `- t ✓ 🔄` is counted as
completed by the validator while the parser assigns it in-progress
status. -/
theorem validate_c9_amended_witness :
    ((validateFileFormat [mixedLine]).completed = 1 ∧
     (validateFileFormat [mixedLine]).incomplete = 0 ∧
     (validateFileFormat [mixedLine]).inProgress = 0) ∧
    (∃ e ∈ parseSteps [mixedLine], e.pos = 0 ∧ e.status = StepStatus.inProgress) :=
  ⟨(validate_c9_amended mixedLine (by decide) (by decide)).1 (by decide),
   (validate_c9_amended mixedLine (by decide) (by decide)).2.2.2 (by decide)⟩

/-- A fresh accept-classified text fires the accept action and opens the
completion latch. -/
theorem handleButton_fire {st : AutoState} {t : List Char}
    (h1 : isAcceptButton t = true) (h2 : some t ≠ st.lastText) :
    handleButton true true st t
      = ⟨{ st with
            commandsExecuted := st.commandsExecuted + 1
            waitingForCompletion := true
            lastText := some t },
          [.acceptKeys], false⟩ := by
  unfold handleButton
  rw [if_neg (isAccept_ne_nil h1), if_pos ⟨h1, h2⟩]
  rfl

/-- Any sample whose raw text equals the stored `lastText` fires no accept
action. -/
theorem handleButton_suppressed {st : AutoState} {t : List Char}
    (h : st.lastText = some t) :
    (handleButton true true st t).actions.count EmitAction.acceptKeys = 0 := by
  unfold handleButton
  by_cases h0 : t = []
  · rw [if_pos h0]
    rfl
  · rw [if_neg h0, if_neg (fun hc => hc.2 h.symm)]
    by_cases h2 : isCompletedText t = true ∧ st.waitingForCompletion = true
    · rw [if_pos h2]
      rfl
    · rw [if_neg h2]
      rfl

/-- Processing a nonempty sample always overwrites `lastText` with the
sample, and fires the accept action exactly when the sample is
accept-classified and differs from the previous one. -/
theorem handleButton_accept_count (st : AutoState) (u : List Char) (hu : u ≠ []) :
    (handleButton true true st u).st.lastText = some u ∧
    (handleButton true true st u).actions.count EmitAction.acceptKeys
      = if isAcceptButton u = true ∧ some u ≠ st.lastText then 1 else 0 := by
  unfold handleButton
  rw [if_neg hu]
  by_cases h1 : isAcceptButton u = true ∧ some u ≠ st.lastText
  · rw [if_pos h1, if_pos h1]
    exact ⟨rfl, rfl⟩
  · rw [if_neg h1, if_neg h1]
    by_cases h2 : isCompletedText u = true ∧ st.waitingForCompletion = true
    · rw [if_pos h2]
      exact ⟨rfl, rfl⟩
    · rw [if_neg h2]
      exact ⟨rfl, rfl⟩

/-- C2: repeated identical reads are the sole debounce of the accept action:
a sample equal to `lastText` fires nothing; the same fresh accept text fed
twice in a row fires once; two different accept texts in a row fire twice;
and any different intervening raw text resets the suppression because
`lastText` is overwritten on every (nonempty) sample. -/
theorem debounce_c2 (st : AutoState) (t u v : List Char)
    (ht : isAcceptButton t = true) :
    (st.lastText = some t →
      (handleButton true true st t).actions.count EmitAction.acceptKeys = 0) ∧
    (runSamples initState [t, t]).2.count EmitAction.acceptKeys = 1 ∧
    (isAcceptButton v = true → v ≠ t →
      (runSamples initState [t, v]).2.count EmitAction.acceptKeys = 2) ∧
    (u ≠ t → u ≠ [] →
      (runSamples initState [t, u, t]).2.count EmitAction.acceptKeys
        = if isAcceptButton u = true then 3 else 2) := by
  have hinit : some t ≠ initState.lastText := by simp [initState]
  have hfire := handleButton_fire ht hinit
  have h1 : (handleButton true true initState t).actions.count EmitAction.acceptKeys
      = 1 := by
    rw [hfire]
    rfl
  have hAlast : (handleButton true true initState t).st.lastText = some t := by
    rw [hfire]
  refine ⟨fun h => handleButton_suppressed h, ?_, ?_, ?_⟩
  · simp only [runSamples, List.count_append, List.count_nil]
    rw [h1, handleButton_suppressed hAlast]
  · intro hv hvt
    have h2 : (handleButton true true (handleButton true true initState t).st
        v).actions.count EmitAction.acceptKeys = 1 := by
      rw [handleButton_fire hv (by rw [hAlast]; simpa using hvt)]
      rfl
    simp only [runSamples, List.count_append, List.count_nil]
    rw [h1, h2]
  · intro hut hu
    obtain ⟨hBlast, hcount2⟩ :=
      handleButton_accept_count (handleButton true true initState t).st u hu
    have hc2 : (handleButton true true (handleButton true true initState t).st
        u).actions.count EmitAction.acceptKeys
        = if isAcceptButton u = true then 1 else 0 := by
      rw [hcount2, hAlast]
      by_cases hau : isAcceptButton u = true
      · rw [if_pos ⟨hau, by simpa using hut⟩, if_pos hau]
      · rw [if_neg (fun hc => hau hc.1), if_neg hau]
    obtain ⟨-, hcount3⟩ := handleButton_accept_count
      (handleButton true true (handleButton true true initState t).st u).st t
      (isAccept_ne_nil ht)
    have hc3 : (handleButton true true
        (handleButton true true (handleButton true true initState t).st u).st
        t).actions.count EmitAction.acceptKeys = 1 := by
      rw [hcount3, hBlast,
        if_pos ⟨ht, by simpa using fun h => hut h.symm⟩]
    simp only [runSamples, List.count_append, List.count_nil]
    rw [h1, hc2, hc3]
    by_cases hau : isAcceptButton u = true
    · rw [if_pos hau, if_pos hau]
    · rw [if_neg hau, if_neg hau]

/-- C2 witness: concrete runs — a stored identical sample fires nothing, the
same accept text twice fires once, two different accept texts fire twice,
and an intervening busy text restores firing on the third sample. -/
theorem debounce_c2_witness :
    (handleButton true true stLastAccept "accept".data).actions.count
        EmitAction.acceptKeys = 0 ∧
    (runSamples initState ["accept".data, "accept".data]).2.count
        EmitAction.acceptKeys = 1 ∧
    (runSamples initState ["accept".data, "accept all".data]).2.count
        EmitAction.acceptKeys = 2 ∧
    (runSamples initState
        ["accept".data, "generating".data, "accept".data]).2.count
        EmitAction.acceptKeys = 2 := by
  have h := debounce_c2 stLastAccept "accept".data "generating".data
    "accept all".data (by decide)
  refine ⟨h.1 rfl, h.2.1, h.2.2.1 (by decide) (by decide), ?_⟩
  have h4 := h.2.2.2 (by decide) (by decide)
  rw [if_neg (by decide)] at h4
  exact h4

/-- While the latch is closed, a sample that fires no accept action fires
nothing at all and leaves the latch closed and the message counter
unchanged. -/
theorem handleButton_no_latch (st : AutoState) (t : List Char)
    (hw : st.waitingForCompletion = false)
    (hna : EmitAction.acceptKeys ∉ (handleButton true true st t).actions) :
    (handleButton true true st t).actions = [] ∧
    (handleButton true true st t).st.waitingForCompletion = false ∧
    (handleButton true true st t).st.messagesSent = st.messagesSent := by
  unfold handleButton at hna ⊢
  by_cases h0 : t = []
  · rw [if_pos h0]
    exact ⟨rfl, hw, rfl⟩
  · rw [if_neg h0] at hna ⊢
    by_cases h1 : isAcceptButton t = true ∧ some t ≠ st.lastText
    · rw [if_pos h1] at hna
      exact absurd (List.mem_cons_self _ _) hna
    · rw [if_neg h1]
      by_cases h2 : isCompletedText t = true ∧ st.waitingForCompletion = true
      · rw [hw] at h2
        exact absurd h2.2 (by simp)
      · rw [if_neg h2]
        exact ⟨rfl, hw, rfl⟩

/-- A run of samples that never fires the accept action fires no continue
action, never opens the latch, and never touches the message counter. -/
theorem runSamples_latch (ts : List (List Char)) :
    ∀ st : AutoState, st.waitingForCompletion = false →
      EmitAction.acceptKeys ∉ (runSamples st ts).2 →
      EmitAction.continueMessage ∉ (runSamples st ts).2 ∧
      (runSamples st ts).1.messagesSent = st.messagesSent ∧
      (runSamples st ts).1.waitingForCompletion = false := by
  induction ts with
  | nil =>
    intro st hw _
    exact ⟨by simp [runSamples], rfl, hw⟩
  | cons t ts ih =>
    intro st hw hna
    simp only [runSamples, List.mem_append, not_or] at hna
    obtain ⟨hna1, hna2⟩ := hna
    obtain ⟨hact, hw', hmsg⟩ := handleButton_no_latch st t hw hna1
    have hrec := ih (handleButton true true st t).st hw' hna2
    refine ⟨?_, ?_, ?_⟩
    · simp only [runSamples, List.mem_append, not_or]
      exact ⟨by rw [hact]; simp, hrec.1⟩
    · simp only [runSamples]
      rw [hrec.2.1, hmsg]
    · simp only [runSamples]
      exact hrec.2.2

/-- C3: on any sequence of samples from the initial session state in which
no accept action has fired, a completion-classified sample produces no
continue action and the message counter stays at zero, because
`waiting_for_completion` starts `False` and only the accept branch can set
it. -/
theorem latch_c3 (ts : List (List Char))
    (h : EmitAction.acceptKeys ∉ (runSamples initState ts).2) :
    EmitAction.continueMessage ∉ (runSamples initState ts).2 ∧
    (runSamples initState ts).1.messagesSent = 0 := by
  obtain ⟨h1, h2, -⟩ := runSamples_latch ts initState rfl h
  exact ⟨h1, h2⟩

/-- C3 witness: two concrete completion-classified samples before any accept
produce no continue action and send no message. -/
theorem latch_c3_witness :
    EmitAction.continueMessage
      ∉ (runSamples initState ["done".data, "completed".data]).2 ∧
    (runSamples initState ["done".data, "completed".data]).1.messagesSent = 0 :=
  latch_c3 ["done".data, "completed".data] (by decide)

/-- Every step entry produced from position `i` onward has position at least
`i`. -/
theorem parseAux_pos_lb :
    ∀ (L : List (List Char)) (i : Nat) (sec sub : List Char) (e : StepEntry),
      e ∈ parseAux i sec sub L → i ≤ e.pos := by
  intro L
  induction L with
  | nil =>
    intro i sec sub e he
    simp [parseAux] at he
  | cons hd tl ih =>
    intro i sec sub e he
    simp only [parseAux] at he
    by_cases h0 : pyStrip hd = []
    · rw [if_pos h0] at he
      exact Nat.le_trans (Nat.le_succ i) (ih (i + 1) sec sub e he)
    · rw [if_neg h0] at he
      by_cases hm : hasMarker (pyStrip hd) = true
      · rw [if_pos hm] at he
        rcases List.mem_cons.1 he with rfl | he'
        · exact Nat.le_refl _
        · exact Nat.le_trans (Nat.le_succ i) (ih (i + 1) _ _ e he')
      · rw [if_neg hm] at he
        exact Nat.le_trans (Nat.le_succ i) (ih (i + 1) _ _ e he)

/-- The positions of the parsed step entries are strictly increasing in
document order. -/
theorem parseAux_sorted :
    ∀ (L : List (List Char)) (i : Nat) (sec sub : List Char),
      (parseAux i sec sub L).Pairwise (fun a b => a.pos < b.pos) := by
  intro L
  induction L with
  | nil => intro i sec sub; simp [parseAux]
  | cons hd tl ih =>
    intro i sec sub
    simp only [parseAux]
    by_cases h0 : pyStrip hd = []
    · rw [if_pos h0]
      exact ih (i + 1) sec sub
    · rw [if_neg h0]
      by_cases hm : hasMarker (pyStrip hd) = true
      · rw [if_pos hm]
        refine List.Pairwise.cons ?_ (ih (i + 1) _ _)
        intro b hb
        have hle := parseAux_pos_lb tl (i + 1) _ _ b hb
        show i < b.pos
        omega
      · rw [if_neg hm]
        exact ih (i + 1) _ _

/-- In a list of entries with strictly increasing positions, an entry is
determined by its position. -/
theorem pairwise_pos_unique :
    ∀ {l : List StepEntry}, l.Pairwise (fun a b => a.pos < b.pos) →
      ∀ e ∈ l, ∀ f ∈ l, e.pos = f.pos → e = f := by
  intro l
  induction l with
  | nil =>
    intro _ e he
    simp at he
  | cons x xs ih =>
    intro hl e he f hf hef
    rcases List.mem_cons.1 he with rfl | he' <;> rcases List.mem_cons.1 hf with rfl | hf'
    · rfl
    · exact absurd hef (Nat.ne_of_lt ((List.pairwise_cons.1 hl).1 f hf'))
    · exact absurd hef.symm (Nat.ne_of_lt ((List.pairwise_cons.1 hl).1 e he'))
    · exact ih (List.pairwise_cons.1 hl).2 e he' f hf' hef

/-- Each document line (at any index) that contains a status glyph yields a
step entry at that position, with the status computed by `stepStatusOf`. -/
theorem parseAux_mem_of_marker :
    ∀ (L : List (List Char)) (i0 : Nat) (sec sub : List Char) (j : Nat)
      (h : j < L.length),
      hasMarker (pyStrip (L.get ⟨j, h⟩)) = true →
      ∃ e ∈ parseAux i0 sec sub L, e.pos = i0 + j ∧
        e.status = stepStatusOf (pyStrip (L.get ⟨j, h⟩)) := by
  intro L
  induction L with
  | nil =>
    intro i0 sec sub j h
    simp at h
  | cons hd tl ih =>
    intro i0 sec sub j h hm
    cases j with
    | zero =>
      have hm0 : hasMarker (pyStrip hd) = true := hm
      have hne : pyStrip hd ≠ [] := marker_ne_nil hm0
      simp only [parseAux]
      rw [if_neg hne, if_pos hm0]
      refine ⟨_, List.mem_cons_self _ _, ?_, rfl⟩
      simp
    | succ j' =>
      have h' : j' < tl.length := by simpa using h
      have hm' : hasMarker (pyStrip (tl.get ⟨j', h'⟩)) = true := hm
      simp only [parseAux]
      by_cases h0 : pyStrip hd = []
      · rw [if_pos h0]
        obtain ⟨e, he, hp, hs⟩ := ih (i0 + 1) sec sub j' h' hm'
        exact ⟨e, he, by omega, hs⟩
      · rw [if_neg h0]
        by_cases hmk : hasMarker (pyStrip hd) = true
        · rw [if_pos hmk]
          obtain ⟨e, he, hp, hs⟩ := ih (i0 + 1) _ _ j' h' hm'
          exact ⟨e, List.mem_cons_of_mem _ he, by omega, hs⟩
        · rw [if_neg hmk]
          obtain ⟨e, he, hp, hs⟩ := ih (i0 + 1) _ _ j' h' hm'
          exact ⟨e, he, by omega, hs⟩

/-- Python's `min(..., key=...)` over a nonempty list whose head is strictly
least returns the head. -/
theorem pyMinByPos_head :
    ∀ {xs : List StepEntry} {x : StepEntry},
      (∀ b ∈ xs, x.pos < b.pos) → pyMinByPos x xs = x := by
  intro xs
  induction xs with
  | nil => intro x _; rfl
  | cons b bs ih =>
    intro x h
    have hstep : pyMinByPos x (b :: bs) = pyMinByPos x bs := by
      unfold pyMinByPos
      rw [List.foldl_cons,
        if_neg (Nat.not_lt.2 (Nat.le_of_lt (h b (List.mem_cons_self _ _))))]
    rw [hstep]
    exact ih fun c hc => h c (List.mem_cons_of_mem _ hc)

/-- The head of a filtered position-sorted entry list is a member satisfying
the predicate with the least position, and `min` returns it. -/
theorem filter_head_min {p : StepEntry → Bool} {steps : List StepEntry}
    (hs : steps.Pairwise (fun a b => a.pos < b.pos)) {x : StepEntry}
    {xs : List StepEntry} (hf : steps.filter p = x :: xs) :
    x ∈ steps ∧ p x = true ∧ (∀ t ∈ steps, p t = true → x.pos ≤ t.pos) ∧
    pyMinByPos x xs = x := by
  have hxmem : x ∈ steps.filter p := by
    rw [hf]
    exact List.mem_cons_self _ _
  have hx := List.mem_filter.1 hxmem
  have hfs : (steps.filter p).Pairwise (fun a b => a.pos < b.pos) :=
    List.Pairwise.sublist (List.filter_sublist _) hs
  rw [hf] at hfs
  have hxs : ∀ b ∈ xs, x.pos < b.pos := (List.pairwise_cons.1 hfs).1
  refine ⟨hx.1, hx.2, ?_, pyMinByPos_head hxs⟩
  intro t ht hpt
  have hmem : t ∈ steps.filter p := List.mem_filter.2 ⟨ht, hpt⟩
  rw [hf] at hmem
  rcases List.mem_cons.1 hmem with rfl | h'
  · exact Nat.le_refl _
  · exact Nat.le_of_lt (hxs t h')

/-- Every parsed step's path is `[section, label]` or
`[section, subsection, label]` with a nonempty subsection. -/
theorem parseAux_path_shape :
    ∀ (L : List (List Char)) (i : Nat) (sec sub : List Char) (e : StepEntry),
      e ∈ parseAux i sec sub L →
      ∃ s su lbl, e.path = if su = [] then [s, lbl] else [s, su, lbl] := by
  intro L
  induction L with
  | nil =>
    intro i sec sub e he
    simp [parseAux] at he
  | cons hd tl ih =>
    intro i sec sub e he
    simp only [parseAux] at he
    by_cases h0 : pyStrip hd = []
    · rw [if_pos h0] at he
      exact ih _ _ _ e he
    · rw [if_neg h0] at he
      by_cases hm : hasMarker (pyStrip hd) = true
      · rw [if_pos hm] at he
        rcases List.mem_cons.1 he with rfl | he'
        · exact ⟨_, _, _, rfl⟩
        · exact ih _ _ _ e he'
      · rw [if_neg hm] at he
        exact ih _ _ _ e he

/-- C1: on a freshly parsed step index, the resolver returns the path of the
earliest-position in-progress step when one exists, else the path of the
earliest-position incomplete step when one exists, else nothing; and every
path is `[section, subsection, label]` with the subsection omitted exactly
when it is empty. -/
theorem resolve_c1 (lines : List (List Char)) :
    ((∃ s ∈ parseSteps lines, s.status = StepStatus.inProgress) →
      ∃ s ∈ parseSteps lines, s.status = StepStatus.inProgress ∧
        (∀ t ∈ parseSteps lines, t.status = StepStatus.inProgress → s.pos ≤ t.pos) ∧
        resolveSteps (parseSteps lines) = some s.path) ∧
    ((∀ s ∈ parseSteps lines, s.status ≠ StepStatus.inProgress) →
      (∃ s ∈ parseSteps lines, s.status = StepStatus.incomplete) →
      ∃ s ∈ parseSteps lines, s.status = StepStatus.incomplete ∧
        (∀ t ∈ parseSteps lines, t.status = StepStatus.incomplete → s.pos ≤ t.pos) ∧
        resolveSteps (parseSteps lines) = some s.path) ∧
    ((∀ s ∈ parseSteps lines,
        s.status ≠ StepStatus.inProgress ∧ s.status ≠ StepStatus.incomplete) →
      resolveSteps (parseSteps lines) = none) ∧
    (∀ s ∈ parseSteps lines, ∃ sec sub lbl,
      s.path = if sub = [] then [sec, lbl] else [sec, sub, lbl]) := by
  have hsorted : (parseSteps lines).Pairwise (fun a b => a.pos < b.pos) :=
    parseAux_sorted lines 0 [] []
  refine ⟨?_, ?_, ?_, ?_⟩
  · rintro ⟨s, hs, hsp⟩
    cases hflt : (parseSteps lines).filter
        (fun s => decide (s.status = StepStatus.inProgress)) with
    | nil =>
      exfalso
      have hmem : s ∈ (parseSteps lines).filter
          (fun s => decide (s.status = StepStatus.inProgress)) :=
        List.mem_filter.2 ⟨hs, by simp [hsp]⟩
      rw [hflt] at hmem
      simp at hmem
    | cons x xs =>
      obtain ⟨hxmem, hxp, hxmin, hmin_eq⟩ := filter_head_min hsorted hflt
      refine ⟨x, hxmem, by simpa using hxp, ?_, ?_⟩
      · intro t ht htp
        exact hxmin t ht (by simp [htp])
      · simp only [resolveSteps, hflt, hmin_eq]
  · intro hnone
    rintro ⟨s, hs, hsp⟩
    have hflt1 : (parseSteps lines).filter
        (fun s => decide (s.status = StepStatus.inProgress)) = [] := by
      rw [List.filter_eq_nil_iff]
      intro a ha
      simpa using hnone a ha
    cases hflt : (parseSteps lines).filter
        (fun s => decide (s.status = StepStatus.incomplete)) with
    | nil =>
      exfalso
      have hmem : s ∈ (parseSteps lines).filter
          (fun s => decide (s.status = StepStatus.incomplete)) :=
        List.mem_filter.2 ⟨hs, by simp [hsp]⟩
      rw [hflt] at hmem
      simp at hmem
    | cons x xs =>
      obtain ⟨hxmem, hxp, hxmin, hmin_eq⟩ := filter_head_min hsorted hflt
      refine ⟨x, hxmem, by simpa using hxp, ?_, ?_⟩
      · intro t ht htp
        exact hxmin t ht (by simp [htp])
      · simp only [resolveSteps, hflt1, hflt, hmin_eq]
  · intro hno
    have hflt1 : (parseSteps lines).filter
        (fun s => decide (s.status = StepStatus.inProgress)) = [] := by
      rw [List.filter_eq_nil_iff]
      intro a ha
      simpa using (hno a ha).1
    have hflt2 : (parseSteps lines).filter
        (fun s => decide (s.status = StepStatus.incomplete)) = [] := by
      rw [List.filter_eq_nil_iff]
      intro a ha
      simpa using (hno a ha).2
    simp only [resolveSteps, hflt1, hflt2]
  · intro s hs
    exact parseAux_path_shape lines 0 [] [] s hs

/-- C1 witness: on the specification's example document the resolver picks
the in-progress `configure env` step under `Setup`. -/
theorem resolve_c1_witness :
    ∃ s ∈ parseSteps exLines, s.status = StepStatus.inProgress ∧
      (∀ t ∈ parseSteps exLines, t.status = StepStatus.inProgress → s.pos ≤ t.pos) ∧
      resolveSteps (parseSteps exLines) = some s.path :=
  (resolve_c1 exLines).1 (by decide)

/-- C4: a document line containing any status glyph yields exactly one step
entry at its line index, and that entry's status is in-progress when the
in-progress glyph is present, else incomplete when the incomplete glyph is
present, else complete — so a line textually carrying several glyphs gets
exactly one status, with in-progress dominating incomplete dominating
complete. -/
theorem parse_status_c4 (lines : List (List Char)) (i : Nat) (h : i < lines.length)
    (hm : hasMarker (pyStrip (lines.get ⟨i, h⟩)) = true) :
    ∃ e ∈ parseSteps lines, e.pos = i ∧
      e.status = (if '🔄' ∈ pyStrip (lines.get ⟨i, h⟩) then StepStatus.inProgress
        else if '❌' ∈ pyStrip (lines.get ⟨i, h⟩) then StepStatus.incomplete
        else StepStatus.complete) ∧
      ∀ f ∈ parseSteps lines, f.pos = i → f = e := by
  obtain ⟨e, he, hp, hs⟩ := parseAux_mem_of_marker lines 0 [] [] i h hm
  refine ⟨e, he, by omega, by rw [hs]; rfl, ?_⟩
  intro f hf hfp
  exact pairwise_pos_unique (parseAux_sorted lines 0 [] []) f hf e he (by omega)

/-- C4 witness: the concrete line `- ✓ ❌ 🔄 all` carrying all three glyphs
parses to exactly one step, with in-progress status. -/
theorem parse_status_c4_witness :
    ∃ e ∈ parseSteps [exMultiLine], e.pos = 0 ∧
      e.status = (if '🔄' ∈ pyStrip exMultiLine then StepStatus.inProgress
        else if '❌' ∈ pyStrip exMultiLine then StepStatus.incomplete
        else StepStatus.complete) ∧
      ∀ f ∈ parseSteps [exMultiLine], f.pos = 0 → f = e :=
  parse_status_c4 [exMultiLine] 0 (by decide) (by decide)

end CursorAutomator
